import Mathlib

/-!
# PDRFUSION — shallow embedding of the PDR core

This file embeds the pedestrian-dead-reckoning core of the repository
(`pdrAlgorithm` module and the `sensorSlice` reducers) in Lean 4 and proves
the frozen claims about it.

Modelling conventions:
* JavaScript numbers are idealized as exact rationals (`ℚ`); all the decimal
  literals of the source (1.2, 0.2, 0.3, …) are exact in `ℚ`.
* `Math.sqrt`, `Math.sin`, `Math.cos` and `Math.PI` are irrational-valued, so
  they are passed as explicit parameters (`psqrt msin mcos : ℚ → ℚ`,
  `piQ : ℚ`); theorems that depend on their values take hypotheses that hold
  for the real functions (e.g. `msin 0 = 0`).
* Each `Math.random()` draw is an explicit input: a per-particle stream
  `noise : ℕ → ℚ × ℚ` for the two draws of the propagate loop, and a scalar
  `uRand` for the single draw of systematic resampling; draws lie in `[0,1)`.
* Mutation of the Redux state is modelled by state-passing: every reducer and
  every mutating helper takes the state and returns the new state.
* The JavaScript `%` operator (remainder with the sign of the dividend,
  i.e. truncated division) is modelled by `jsMod`.
-/

namespace PDRFusion

/-- Truncation toward zero, the rounding used by the JavaScript `%` operator. -/
def qtrunc (q : ℚ) : ℤ :=
  if 0 ≤ q then ⌊q⌋ else ⌈q⌉

/-- The JavaScript remainder operator `a % b` (sign of the dividend). -/
def jsMod (a b : ℚ) : ℚ :=
  a - b * (qtrunc (a / b) : ℚ)

/-- 3-axis vector, from the `Vector3` interface. -/
structure Vector3 where
  x : ℚ
  y : ℚ
  z : ℚ
deriving DecidableEq

/-- A particle of the filter population, from the `Particle` interface. -/
structure Particle where
  x : ℚ
  y : ℚ
  heading : ℚ
  weight : ℚ
deriving DecidableEq

/-- The core PDR session state, from the `PDRState` interface. -/
structure PDRState where
  x : ℚ
  y : ℚ
  z : ℚ
  lastStepTime : ℚ
  stepCount : ℕ
  lastAccelMag : ℚ
  particles : List Particle
  headingBias : ℚ
  deviceContext : String
  motionState : String
deriving DecidableEq

/-- Configuration of the PDR logic, from the `PDRConfig` interface. -/
structure PDRConfig where
  particleCount : ℕ
  headingNoise : ℚ
  stepLenNoise : ℚ
  resampleThreshold : ℚ
  maxHeadingBias : ℚ
  headingCorrectionGain : ℚ
  stepLengthWalkRange : ℚ × ℚ
  stepLengthRunRange : ℚ × ℚ
deriving DecidableEq

/-- The default PDR config used in `sensorSlice` (`defaultConfig`). -/
def defaultConfig : PDRConfig :=
  { particleCount := 150
    headingNoise := 5
    stepLenNoise := 0.1
    resampleThreshold := 75
    maxHeadingBias := 10
    headingCorrectionGain := 0.3
    stepLengthWalkRange := (0.5, 0.7)
    stepLengthRunRange := (0.7, 1.1) }

/-- Step detection (`detectSteps`).  `psqrt` stands for `Math.sqrt`; the
returned pair is (returned boolean, state after the in-place mutation). -/
def detectSteps (psqrt : ℚ → ℚ) (accel : Vector3) (timeNow : ℚ)
    (state : PDRState) : Bool × PDRState :=
  let amag := psqrt (accel.x * accel.x + accel.y * accel.y + accel.z * accel.z)
  let dynamicThreshold : ℚ := 1.2
  let dt := timeNow - state.lastStepTime
  if amag > dynamicThreshold ∧ dt > 0.2 then
    (true, { state with stepCount := state.stepCount + 1, lastStepTime := timeNow })
  else
    (false, state)

/-- Calibration coefficient lookup (`getCalibrationCoeffs`), returning
(α, β, γ). -/
def getCalibrationCoeffs (motionState context : String) : ℚ × ℚ × ℚ :=
  if motionState = "walking" ∧ context = "holding" then
    (0.8, 0.1, 0.35)
  else if motionState = "running" ∧ context = "pocket" then
    (1.1, 0.4, 0.5)
  else
    (0.7, 0.2, 0.3)

/-- Step length estimation (`estimateStepLength`): Ls = α·freq + β·var + γ. -/
def estimateStepLength (stepFrequency accelVariance : ℚ)
    (motionState deviceContext : String) : ℚ :=
  let c := getCalibrationCoeffs motionState deviceContext
  c.1 * stepFrequency + c.2.1 * accelVariance + c.2.2

/-- Heading determination (`computeHeading`); the nullable geolocation heading
is an `Option` (the source also rejects `NaN`, which `ℚ` cannot represent). -/
def computeHeading (deviceOrientation : ℚ) (geolocationHeading : Option ℚ) : ℚ :=
  let heading := deviceOrientation
  let heading :=
    match geolocationHeading with
    | some g => 0.7 * heading + 0.3 * g
    | none => heading
  jsMod (jsMod heading 360 + 360) 360

/-- Motion classification (`classifyMotion`). -/
def classifyMotion (accelVariance gyroVariance : ℚ) : String :=
  if accelVariance < 0.5 ∧ gyroVariance < 2 then "walking"
  else if accelVariance > 0.5 ∧ gyroVariance > 5 then "running"
  else "stairs"

/-- One iteration of the propagate loop of `particleFilterUpdate`: move one
particle.  `nz` is the pair of `Math.random()` draws of this iteration,
`msin`/`mcos` stand for `Math.sin`/`Math.cos` and `piQ` for `Math.PI`. -/
def propagateParticle (msin mcos : ℚ → ℚ) (piQ : ℚ) (config : PDRConfig)
    (stepLength headingDeg : ℚ) (nz : ℚ × ℚ) (p : Particle) : Particle :=
  let headingNoise := (nz.1 - 0.5) * config.headingNoise
  let stepLenNoise := (nz.2 - 0.5) * config.stepLenNoise
  let pHeading := jsMod (jsMod (headingDeg + headingNoise) 360 + 360) 360
  let step := stepLength + stepLenNoise
  let rad := pHeading * piQ / 180
  { x := p.x + step * msin rad
    y := p.y + step * mcos rad
    heading := pHeading
    weight := p.weight }

/-- The propagate loop of `particleFilterUpdate` over the whole population;
the `ℕ` argument indexes the random draws consumed so far. -/
def propagateParticles (msin mcos : ℚ → ℚ) (piQ : ℚ) (config : PDRConfig)
    (stepLength headingDeg : ℚ) (noise : ℕ → ℚ × ℚ) :
    ℕ → List Particle → List Particle
  | _, [] => []
  | i, p :: rest =>
      propagateParticle msin mcos piQ config stepLength headingDeg (noise i) p ::
        propagateParticles msin mcos piQ config stepLength headingDeg noise (i + 1) rest

/-- Sum of the particle weights (the `reduce` of the normalize step). -/
def sumW (ps : List Particle) : ℚ := (ps.map Particle.weight).sum

/-- The normalize step of `particleFilterUpdate`: divide every weight by the
sum when the sum is positive, otherwise leave the weights untouched. -/
def normalizeWeights (ps : List Particle) : List Particle :=
  if 0 < sumW ps then ps.map (fun p => { p with weight := p.weight / sumW ps })
  else ps

/-- Σ weight², the accumulator called `neff` in the source before it is
inverted. -/
def neffInvOf (ps : List Particle) : ℚ :=
  (ps.map (fun p => p.weight * p.weight)).sum

/-- The running cumulative-weight list built by the first loop of
`resampleParticles` (`cdf`), with accumulator `acc`. -/
def cdfAux (acc : ℚ) : List Particle → List ℚ
  | [] => []
  | p :: rest => (acc + p.weight) :: cdfAux (acc + p.weight) rest

/-- The inner `while (u > cdf[i]) i++` loop of `resampleParticles`.  When `i`
runs past the end, the JavaScript comparison with `undefined` is false and the
loop stops, which is exactly the `else` branch here. -/
def advance (cdf : List ℚ) (u : ℚ) (i : ℕ) : ℕ :=
  if h : i < cdf.length then
    if u > cdf.get ⟨i, h⟩ then advance cdf u (i + 1) else i
  else i
termination_by cdf.length - i

/-- The selection loop of `resampleParticles`: `n` iterations remain, `u` is
the current offset and `i` the persistent scan index; `w` is the reset weight
`1 / particleCount`.  Out-of-bounds access (a crash in JavaScript) is given a
zero default; the claims' preconditions keep the index in bounds. -/
def resampleLoop (ps : List Particle) (cdf : List ℚ) (stepQ w : ℚ) :
    ℕ → ℚ → ℕ → List Particle
  | 0, _, _ => []
  | n + 1, u, i =>
      let i2 := advance cdf u i
      let oldP := ps.getD i2 { x := 0, y := 0, heading := 0, weight := 0 }
      { x := oldP.x, y := oldP.y, heading := oldP.heading, weight := w } ::
        resampleLoop ps cdf stepQ w n (u + stepQ) i2

/-- Systematic resampling (`resampleParticles`); `uRand` is the
`Math.random()` draw of the single offset. -/
def resampleParticles (state : PDRState) (config : PDRConfig) (uRand : ℚ) :
    PDRState :=
  let cdf := cdfAux 0 state.particles
  let sum := sumW state.particles
  let stepQ := sum / (config.particleCount : ℚ)
  let u := uRand * stepQ
  { state with
      particles :=
        resampleLoop state.particles cdf stepQ (1 / (config.particleCount : ℚ))
          config.particleCount u 0 }

/-- Weighted mean of the particle x coordinates (the `xMean` loop). -/
def xMeanOf (ps : List Particle) : ℚ := (ps.map (fun p => p.x * p.weight)).sum

/-- Weighted mean of the particle y coordinates (the `yMean` loop). -/
def yMeanOf (ps : List Particle) : ℚ := (ps.map (fun p => p.y * p.weight)).sum

/-- The particle filter update (`particleFilterUpdate`): propagate, normalize,
degeneracy check, optional resample, weighted-mean estimate.  In the source
`neff = 1 / Σ weight²` is IEEE `Infinity` when `Σ weight² = 0` and the
comparison with the threshold is then false, so the resample branch is guarded
by `0 < Σ weight²` here (over `ℚ`, where `1 / 0 = 0`, writing the comparison
alone would wrongly take the branch). -/
def particleFilterUpdate (msin mcos : ℚ → ℚ) (piQ : ℚ) (noise : ℕ → ℚ × ℚ)
    (uRand : ℚ) (state : PDRState) (stepLength headingDeg : ℚ)
    (config : PDRConfig) : PDRState :=
  let moved := propagateParticles msin mcos piQ config stepLength headingDeg
    noise 0 state.particles
  let normed := normalizeWeights moved
  let neffInv := neffInvOf normed
  let st1 := { state with particles := normed }
  let st2 :=
    if 0 < neffInv ∧ 1 / neffInv < config.resampleThreshold then
      resampleParticles st1 config uRand
    else st1
  { st2 with x := xMeanOf st2.particles, y := yMeanOf st2.particles }

/-- Step length clamping (`correctStepLength`). -/
def correctStepLength (stepLength : ℚ) (motionState : String)
    (config : PDRConfig) : ℚ :=
  if motionState = "walking" then
    max config.stepLengthWalkRange.1 (min stepLength config.stepLengthWalkRange.2)
  else if motionState = "running" then
    max config.stepLengthRunRange.1 (min stepLength config.stepLengthRunRange.2)
  else
    stepLength

/-- Heading bias correction (`correctHeading`). -/
def correctHeading (headingDeg bias : ℚ) (config : PDRConfig) : ℚ :=
  let corrected := headingDeg + config.headingCorrectionGain * bias
  jsMod (jsMod corrected 360 + 360) 360

/-! ## The Redux slice (`sensorSlice.ts`) -/

/-- The user phase (`UserState`). -/
inductive UserState where
  | selectingStart
  | startPointSelected
deriving DecidableEq

/-- Gyroscope sample (`GyroData`). -/
structure GyroData where
  alpha : ℚ
  beta : ℚ
  gamma : ℚ
deriving DecidableEq

/-- Captured snapshot record (`SensorSnapshot`). -/
structure SensorSnapshot where
  timestamp : ℚ
  acceleration : Vector3
  gyroscope : GyroData
  magnetometer : Vector3
  barometricPressure : ℚ
  position : Vector3
deriving DecidableEq

/-- The Redux sensor state (`SensorState`). -/
structure SensorState where
  userState : UserState
  sensorEnabled : Bool
  dragMode : Bool
  orientationAngle : ℚ
  rawAcceleration : Vector3
  rawGyroscope : GyroData
  rawMagnetometer : Vector3
  barometricPressure : ℚ
  dataSnapshots : List SensorSnapshot
  recording : Bool
  pdr : PDRState
deriving DecidableEq

/-- The initial PDR substate (`initialPDR`): 150 particles at the origin with
heading 0 and uniform weight 1/150. -/
def initialPDR : PDRState :=
  { x := 0, y := 0, z := 0
    lastStepTime := 0
    stepCount := 0
    lastAccelMag := 0
    particles := List.replicate 150 { x := 0, y := 0, heading := 0, weight := 1 / 150 }
    headingBias := 0
    deviceContext := "holding"
    motionState := "walking" }

/-- The initial Redux state (`initialState`). -/
def initialState : SensorState :=
  { userState := UserState.selectingStart
    sensorEnabled := false
    dragMode := false
    orientationAngle := 0
    rawAcceleration := { x := 0, y := 0, z := 0 }
    rawGyroscope := { alpha := 0, beta := 0, gamma := 0 }
    rawMagnetometer := { x := 0, y := 0, z := 0 }
    barometricPressure := 1013.25
    dataSnapshots := []
    recording := false
    pdr := initialPDR }

/-- The `setStartingPosition` reducer: write the payload into `pdr.x/y/z`. -/
def setStartingPosition (state : SensorState) (payload : Vector3) : SensorState :=
  { state with
      pdr := { state.pdr with x := payload.x, y := payload.y, z := payload.z } }

/-- The `dt`/`stepFreq` computation of `updateRealTimePosition` (its lines
`const dt = nowSec - state.pdr.lastStepTime; const stepFreq = dt > 0 ? 1/dt : 1`),
evaluated on the PDR state as it stands after `detectSteps` has run. -/
def updateStepFreq (nowSec : ℚ) (pdr : PDRState) : ℚ :=
  let dt := nowSec - pdr.lastStepTime
  if dt > 0 then 1 / dt else 1

/-- Modelled from the spec (§4.3, §4.6): the step frequency as the spec
describes it — the reciprocal of the elapsed inter-step interval, measured
from the previous step's `lastStepTime` to the current sample time, with a
fallback of 1 when the interval is zero.  Kept for comparison with the
source-derived `updateStepFreq`. -/
def specStepFreq (nowSec prevLastStepTime : ℚ) : ℚ :=
  let interval := nowSec - prevLastStepTime
  if interval = 0 then 1 else 1 / interval

/-- The `updateRealTimePosition` reducer.  `nowSec` stands for
`Date.now() / 1000`; the transcendental-function and randomness parameters are
threaded through to the PDR helpers. -/
def updateRealTimePosition (psqrt msin mcos : ℚ → ℚ) (piQ : ℚ)
    (noise : ℕ → ℚ × ℚ) (uRand : ℚ) (nowSec : ℚ) (s : SensorState) :
    SensorState :=
  if s.userState = UserState.selectingStart then s
  else
    let accel := s.rawAcceleration
    let det := detectSteps psqrt accel nowSec s.pdr
    let pdr2 :=
      if det.1 then
        let stepFreq := updateStepFreq nowSec det.2
        let accelVar : ℚ := 0.3
        let gyroVar : ℚ := 2.0
        let motion := classifyMotion accelVar gyroVar
        let pdrM := { det.2 with motionState := motion }
        let Ls0 := estimateStepLength stepFreq accelVar motion pdrM.deviceContext
        let Ls1 := correctStepLength Ls0 motion defaultConfig
        let Ls := Ls1 * 5
        let headingDeg0 := computeHeading s.orientationAngle none
        let headingDeg1 := correctHeading headingDeg0 pdrM.headingBias defaultConfig
        particleFilterUpdate msin mcos piQ noise uRand pdrM Ls headingDeg1 defaultConfig
      else det.2
    let amag := psqrt (accel.x * accel.x + accel.y * accel.y + accel.z * accel.z)
    { s with pdr := { pdr2 with lastAccelMag := amag } }

/-! ## Helper lemmas -/

/-- `detectSteps` written as a single conditional. -/
theorem detectSteps_eq (psqrt : ℚ → ℚ) (accel : Vector3) (timeNow : ℚ)
    (state : PDRState) :
    detectSteps psqrt accel timeNow state =
      if psqrt (accel.x * accel.x + accel.y * accel.y + accel.z * accel.z) > 1.2 ∧
          timeNow - state.lastStepTime > 0.2 then
        (true, { state with stepCount := state.stepCount + 1, lastStepTime := timeNow })
      else (false, state) := rfl

theorem detectSteps_fst_true {psqrt : ℚ → ℚ} {accel : Vector3} {timeNow : ℚ}
    {state : PDRState} (h : (detectSteps psqrt accel timeNow state).1 = true) :
    (detectSteps psqrt accel timeNow state).2 =
      { state with stepCount := state.stepCount + 1, lastStepTime := timeNow } := by
  rw [detectSteps_eq] at h ⊢
  split at h
  · split
    · rfl
    · simp_all
  · simp at h

theorem detectSteps_fst_false {psqrt : ℚ → ℚ} {accel : Vector3} {timeNow : ℚ}
    {state : PDRState} (h : (detectSteps psqrt accel timeNow state).1 = false) :
    (detectSteps psqrt accel timeNow state).2 = state := by
  rw [detectSteps_eq] at h ⊢
  split at h
  · simp at h
  · split
    · simp_all
    · rfl

theorem sumW_nil : sumW [] = 0 := rfl

theorem sumW_cons (p : Particle) (ps : List Particle) :
    sumW (p :: ps) = p.weight + sumW ps := by
  simp [sumW]

theorem sumW_map_weight_div (ps : List Particle) (c : ℚ) :
    sumW (ps.map (fun p => { p with weight := p.weight / c })) = sumW ps / c := by
  induction ps with
  | nil => simp [sumW]
  | cons p rest ih => simp [sumW_cons, ih, add_div]

theorem sumW_pos {ps : List Particle} (hne : ps ≠ [])
    (hw : ∀ p ∈ ps, 0 < p.weight) : 0 < sumW ps := by
  apply List.sum_pos
  · intro x hx
    obtain ⟨p, hp, rfl⟩ := List.mem_map.mp hx
    exact hw p hp
  · simpa using hne

/-- The propagate loop leaves every weight unchanged. -/
theorem propagateParticles_map_weight (msin mcos : ℚ → ℚ) (piQ : ℚ)
    (config : PDRConfig) (stepLength headingDeg : ℚ) (noise : ℕ → ℚ × ℚ) :
    ∀ (i : ℕ) (ps : List Particle),
      (propagateParticles msin mcos piQ config stepLength headingDeg noise i
        ps).map Particle.weight = ps.map Particle.weight := by
  intro i ps
  induction ps generalizing i with
  | nil => rfl
  | cons p rest ih =>
    simp only [propagateParticles, List.map_cons, ih]
    rfl

theorem sumW_propagateParticles (msin mcos : ℚ → ℚ) (piQ : ℚ)
    (config : PDRConfig) (stepLength headingDeg : ℚ) (noise : ℕ → ℚ × ℚ)
    (i : ℕ) (ps : List Particle) :
    sumW (propagateParticles msin mcos piQ config stepLength headingDeg noise i
      ps) = sumW ps := by
  simp [sumW, propagateParticles_map_weight]

theorem propagateParticles_length (msin mcos : ℚ → ℚ) (piQ : ℚ)
    (config : PDRConfig) (stepLength headingDeg : ℚ) (noise : ℕ → ℚ × ℚ)
    (i : ℕ) (ps : List Particle) :
    (propagateParticles msin mcos piQ config stepLength headingDeg noise i
      ps).length = ps.length := by
  have h := congrArg List.length
    (propagateParticles_map_weight msin mcos piQ config stepLength headingDeg noise i ps)
  simpa using h

/-- Characterization of the normalize step when the weight sum is positive. -/
theorem normalizeWeights_pos_eq {ps : List Particle} (h : 0 < sumW ps) :
    normalizeWeights ps = ps.map (fun p => { p with weight := p.weight / sumW ps }) := by
  simp [normalizeWeights, if_pos h]

/-- Characterization of the normalize step when the sum is not positive. -/
theorem normalizeWeights_nonpos_eq {ps : List Particle} (h : sumW ps ≤ 0) :
    normalizeWeights ps = ps := by
  simp [normalizeWeights, not_lt.mpr h]

/-- After normalization with a positive sum the weights sum to 1. -/
theorem sumW_normalizeWeights {ps : List Particle} (h : 0 < sumW ps) :
    sumW (normalizeWeights ps) = 1 := by
  rw [normalizeWeights_pos_eq h, sumW_map_weight_div, div_self (ne_of_gt h)]

theorem normalizeWeights_length (ps : List Particle) :
    (normalizeWeights ps).length = ps.length := by
  unfold normalizeWeights
  split <;> simp

/-- The resampling selection loop emits exactly `n` particles. -/
theorem resampleLoop_length (ps : List Particle) (cdf : List ℚ) (stepQ w : ℚ) :
    ∀ (n : ℕ) (u : ℚ) (i : ℕ),
      (resampleLoop ps cdf stepQ w n u i).length = n := by
  intro n
  induction n with
  | zero => intro u i; rfl
  | succ n ih => intro u i; simp [resampleLoop, ih]

/-- Every particle emitted by the selection loop carries the reset weight. -/
theorem resampleLoop_map_weight (ps : List Particle) (cdf : List ℚ)
    (stepQ w : ℚ) :
    ∀ (n : ℕ) (u : ℚ) (i : ℕ),
      (resampleLoop ps cdf stepQ w n u i).map Particle.weight =
        List.replicate n w := by
  intro n
  induction n with
  | zero => intro u i; rfl
  | succ n ih =>
    intro u i
    simp only [resampleLoop, List.map_cons, ih, List.replicate_succ]

theorem sumW_resampleLoop (ps : List Particle) (cdf : List ℚ) (stepQ w : ℚ)
    (n : ℕ) (u : ℚ) (i : ℕ) :
    sumW (resampleLoop ps cdf stepQ w n u i) = n * w := by
  rw [sumW, resampleLoop_map_weight, List.sum_replicate, nsmul_eq_mul]

/-- `particleFilterUpdate` in terms of its stages: the final particle list is
the normalized propagated population, resampled exactly when the effective
sample size falls below the threshold. -/
theorem particleFilterUpdate_particles (msin mcos : ℚ → ℚ) (piQ : ℚ)
    (noise : ℕ → ℚ × ℚ) (uRand : ℚ) (state : PDRState)
    (stepLength headingDeg : ℚ) (config : PDRConfig) :
    (particleFilterUpdate msin mcos piQ noise uRand state stepLength headingDeg
      config).particles =
      if 0 < neffInvOf (normalizeWeights (propagateParticles msin mcos piQ
            config stepLength headingDeg noise 0 state.particles)) ∧
          1 / neffInvOf (normalizeWeights (propagateParticles msin mcos piQ
            config stepLength headingDeg noise 0 state.particles)) <
            config.resampleThreshold then
        (resampleParticles
          { state with
              particles := normalizeWeights (propagateParticles msin mcos piQ
                config stepLength headingDeg noise 0 state.particles) }
          config uRand).particles
      else
        normalizeWeights (propagateParticles msin mcos piQ config stepLength
          headingDeg noise 0 state.particles) := by
  simp only [particleFilterUpdate]
  split <;> rfl

/-- The final position estimate is the weighted mean over the final particle
list. -/
theorem particleFilterUpdate_x (msin mcos : ℚ → ℚ) (piQ : ℚ)
    (noise : ℕ → ℚ × ℚ) (uRand : ℚ) (state : PDRState)
    (stepLength headingDeg : ℚ) (config : PDRConfig) :
    (particleFilterUpdate msin mcos piQ noise uRand state stepLength headingDeg
      config).x =
      xMeanOf (particleFilterUpdate msin mcos piQ noise uRand state stepLength
        headingDeg config).particles := rfl

theorem particleFilterUpdate_y (msin mcos : ℚ → ℚ) (piQ : ℚ)
    (noise : ℕ → ℚ × ℚ) (uRand : ℚ) (state : PDRState)
    (stepLength headingDeg : ℚ) (config : PDRConfig) :
    (particleFilterUpdate msin mcos piQ noise uRand state stepLength headingDeg
      config).y =
      yMeanOf (particleFilterUpdate msin mcos piQ noise uRand state stepLength
        headingDeg config).particles := rfl

theorem resampleParticles_particles (state : PDRState) (config : PDRConfig)
    (uRand : ℚ) :
    (resampleParticles state config uRand).particles =
      resampleLoop state.particles (cdfAux 0 state.particles)
        (sumW state.particles / (config.particleCount : ℚ))
        (1 / (config.particleCount : ℚ)) config.particleCount
        (uRand * (sumW state.particles / (config.particleCount : ℚ))) 0 := rfl

theorem cdfAux_length (acc : ℚ) (ps : List Particle) :
    (cdfAux acc ps).length = ps.length := by
  induction ps generalizing acc with
  | nil => rfl
  | cons p rest ih => simp [cdfAux, ih]

theorem cdfAux_ne_nil (acc : ℚ) {ps : List Particle} (h : ps ≠ []) :
    cdfAux acc ps ≠ [] := by
  cases ps with
  | nil => exact absurd rfl h
  | cons p rest => simp [cdfAux]

/-- The last entry of the cumulative-weight list is the total weight (shifted
by the starting accumulator). -/
theorem cdfAux_getLast (acc : ℚ) {ps : List Particle} (h : ps ≠ []) :
    (cdfAux acc ps).getLast (cdfAux_ne_nil acc h) = acc + sumW ps := by
  induction ps generalizing acc with
  | nil => exact absurd rfl h
  | cons p rest ih =>
    cases rest with
    | nil => simp [cdfAux, sumW_cons, sumW_nil]
    | cons q rest2 =>
      have hne2 : (q :: rest2 : List Particle) ≠ [] := by simp
      calc (cdfAux acc (p :: q :: rest2)).getLast _
          = (cdfAux (acc + p.weight) (q :: rest2)).getLast
              (cdfAux_ne_nil _ hne2) := List.getLast_cons _
        _ = (acc + p.weight) + sumW (q :: rest2) := ih (acc + p.weight) hne2
        _ = acc + sumW (p :: q :: rest2) := by simp only [sumW_cons]; ring

/-- If the offset does not exceed the last cumulative entry, the scan index
returned by the `while` loop stays in bounds. -/
theorem advance_lt {cdf : List ℚ} {u : ℚ} (hne : cdf ≠ [])
    (hlast : u ≤ cdf.getLast hne) :
    ∀ i, i < cdf.length → advance cdf u i < cdf.length := by
  have key : ∀ (d i : ℕ), cdf.length - i ≤ d → i < cdf.length →
      advance cdf u i < cdf.length := by
    intro d
    induction d with
    | zero => intro i hd hi; omega
    | succ d ih =>
      intro i hd hi
      rw [advance, dif_pos hi]
      split
      · rename_i hgt
        have hine : i ≠ cdf.length - 1 := by
          intro he
          rw [List.getLast_eq_getElem] at hlast
          rw [List.get_eq_getElem] at hgt
          subst he
          exact absurd hlast (not_le.mpr hgt)
        exact ih (i + 1) (by omega) (by omega)
      · exact hi
  intro i hi
  exact key cdf.length i (by omega) hi

/-- Every particle emitted by the selection loop is a copy (position and
heading) of some particle of the source population, carrying the reset
weight, provided every offset visited stays below the last cumulative
entry. -/
theorem resampleLoop_mem {ps : List Particle} {cdf : List ℚ}
    (hne : cdf ≠ []) (hlen : cdf.length = ps.length) (stepQ w : ℚ) :
    ∀ (n : ℕ) (u : ℚ) (i : ℕ), i < cdf.length →
      (∀ m : ℕ, m < n → u + (m : ℚ) * stepQ ≤ cdf.getLast hne) →
      ∀ q ∈ resampleLoop ps cdf stepQ w n u i,
        ∃ p ∈ ps, q.x = p.x ∧ q.y = p.y ∧ q.heading = p.heading ∧
          q.weight = w := by
  intro n
  induction n with
  | zero =>
    intro u i hi hub q hq
    simp [resampleLoop] at hq
  | succ n ih =>
    intro u i hi hub q hq
    have hu0 : u ≤ cdf.getLast hne := by
      have := hub 0 (by omega)
      simpa using this
    have hadv : advance cdf u i < cdf.length := advance_lt hne hu0 i hi
    have hadvp : advance cdf u i < ps.length := hlen ▸ hadv
    rw [resampleLoop] at hq
    rcases List.mem_cons.mp hq with hq1 | hq2
    · refine ⟨ps.get ⟨advance cdf u i, hadvp⟩, List.get_mem ps _ _, ?_⟩
      have hgd : ps.getD (advance cdf u i)
          { x := 0, y := 0, heading := 0, weight := 0 } =
            ps.get ⟨advance cdf u i, hadvp⟩ := by
        rw [List.getD_eq_getElem?_getD, List.getElem?_eq_getElem hadvp]
        rfl
      rw [hq1, hgd]
      exact ⟨rfl, rfl, rfl, rfl⟩
    · refine ih (u + stepQ) (advance cdf u i) hadv ?_ q hq2
      intro m hm
      have := hub (m + 1) (by omega)
      calc u + stepQ + (m : ℚ) * stepQ
          = u + ((m : ℚ) + 1) * stepQ := by ring
        _ = u + ((m + 1 : ℕ) : ℚ) * stepQ := by push_cast; ring
        _ ≤ cdf.getLast hne := this

theorem neffInvOf_eq (ps : List Particle) :
    neffInvOf ps = ((ps.map Particle.weight).map (fun w => w * w)).sum := by
  simp [neffInvOf, List.map_map, Function.comp_def]

/-- Σ weight² only depends on the weight multiset. -/
theorem neffInvOf_congr {ps qs : List Particle}
    (h : ps.map Particle.weight = qs.map Particle.weight) :
    neffInvOf ps = neffInvOf qs := by
  rw [neffInvOf_eq, neffInvOf_eq, h]

theorem normalizeWeights_map_weight {ps : List Particle} (h : 0 < sumW ps) :
    (normalizeWeights ps).map Particle.weight =
      (ps.map Particle.weight).map (fun w => w / sumW ps) := by
  rw [normalizeWeights_pos_eq h]
  simp [List.map_map, Function.comp_def]

/-- The particle filter never touches `motionState` (it writes only the
particle list and the estimated x/y). -/
theorem particleFilterUpdate_motionState (msin mcos : ℚ → ℚ) (piQ : ℚ)
    (noise : ℕ → ℚ × ℚ) (uRand : ℚ) (state : PDRState)
    (stepLength headingDeg : ℚ) (config : PDRConfig) :
    (particleFilterUpdate msin mcos piQ noise uRand state stepLength headingDeg
      config).motionState = state.motionState := by
  simp only [particleFilterUpdate, resampleParticles]
  split <;> rfl

/-! ## Claim theorems -/

/-- C6: `detectSteps` returns true iff the acceleration magnitude exceeds the
fixed threshold 1.2 and the elapsed time since `lastStepTime` exceeds the
0.2 s refractory period; on detection it increments `stepCount` and sets
`lastStepTime` to the current timestamp, otherwise it returns false and leaves
the state untouched.  Consequently two above-threshold samples 0.1 s apart
register at most one step (if the first fires, the second cannot), while two
samples 0.3 s apart can register two (witnessed from the initial state). -/
theorem detectSteps_spec :
    (∀ (psqrt : ℚ → ℚ) (accel : Vector3) (timeNow : ℚ) (state : PDRState),
      ((detectSteps psqrt accel timeNow state).1 = true ↔
        psqrt (accel.x * accel.x + accel.y * accel.y + accel.z * accel.z) > 1.2 ∧
          timeNow - state.lastStepTime > 0.2)) ∧
    (∀ (psqrt : ℚ → ℚ) (accel : Vector3) (timeNow : ℚ) (state : PDRState),
      (detectSteps psqrt accel timeNow state).1 = true →
        (detectSteps psqrt accel timeNow state).2 =
          { state with stepCount := state.stepCount + 1, lastStepTime := timeNow }) ∧
    (∀ (psqrt : ℚ → ℚ) (accel : Vector3) (timeNow : ℚ) (state : PDRState),
      (detectSteps psqrt accel timeNow state).1 = false →
        (detectSteps psqrt accel timeNow state).2 = state) ∧
    (∀ (psqrt : ℚ → ℚ) (a1 a2 : Vector3) (timeNow : ℚ) (state : PDRState),
      (detectSteps psqrt a1 timeNow state).1 = true →
        (detectSteps psqrt a2 (timeNow + 0.1)
          (detectSteps psqrt a1 timeNow state).2).1 = false) ∧
    ((detectSteps (fun _ => 2) { x := 2, y := 0, z := 0 } 1 initialPDR).1 = true ∧
      (detectSteps (fun _ => 2) { x := 2, y := 0, z := 0 } (1 + 0.3)
        (detectSteps (fun _ => 2) { x := 2, y := 0, z := 0 } 1 initialPDR).2).1 = true) := by
  refine ⟨?_, ?_, ?_, ?_, ?_, ?_⟩
  · intro psqrt accel timeNow state
    rw [detectSteps_eq]
    split
    · simp_all
    · simp_all
  · intro psqrt accel timeNow state h
    exact detectSteps_fst_true h
  · intro psqrt accel timeNow state h
    exact detectSteps_fst_false h
  · intro psqrt a1 a2 timeNow state h
    rw [detectSteps_fst_true h, detectSteps_eq]
    split
    · rename_i hcond
      exfalso
      have h2 := hcond.2
      simp only [PDRState.mk.injEq] at h2
      norm_num at h2
    · rfl
  · norm_num [detectSteps, initialPDR]
  · norm_num [detectSteps, initialPDR]

/-- Witness for C6: concrete instantiation of the refractory-period clause —
after a detected step at time 1 (from the initial state), a second
above-threshold sample at time 1.1 does not register. -/
theorem detectSteps_spec_witness :
    (detectSteps (fun _ => 2) { x := 2, y := 0, z := 0 } (1 + 0.1)
      (detectSteps (fun _ => 2) { x := 2, y := 0, z := 0 } 1 initialPDR).2).1 = false :=
  detectSteps_spec.2.2.2.1 (fun _ => 2) { x := 2, y := 0, z := 0 }
    { x := 2, y := 0, z := 0 } 1 initialPDR
    (by norm_num [detectSteps, initialPDR])

/-- C7: `correctStepLength` clamps into `stepLengthWalkRange` for
motionState "walking" and into `stepLengthRunRange` for "running" (given the
range is well-formed, min ≤ max); every other motion state passes the input
through unchanged. -/
theorem correctStepLength_spec :
    (∀ (stepLength : ℚ) (config : PDRConfig),
      config.stepLengthWalkRange.1 ≤ config.stepLengthWalkRange.2 →
        config.stepLengthWalkRange.1 ≤ correctStepLength stepLength "walking" config ∧
          correctStepLength stepLength "walking" config ≤ config.stepLengthWalkRange.2) ∧
    (∀ (stepLength : ℚ) (config : PDRConfig),
      config.stepLengthRunRange.1 ≤ config.stepLengthRunRange.2 →
        config.stepLengthRunRange.1 ≤ correctStepLength stepLength "running" config ∧
          correctStepLength stepLength "running" config ≤ config.stepLengthRunRange.2) ∧
    (∀ (stepLength : ℚ) (motionState : String) (config : PDRConfig),
      motionState ≠ "walking" → motionState ≠ "running" →
        correctStepLength stepLength motionState config = stepLength) := by
  refine ⟨?_, ?_, ?_⟩
  · intro stepLength config hr
    have h2 : correctStepLength stepLength "walking" config =
        max config.stepLengthWalkRange.1 (min stepLength config.stepLengthWalkRange.2) := by
      simp [correctStepLength]
    rw [h2]
    exact ⟨le_max_left _ _, max_le hr (min_le_right _ _)⟩
  · intro stepLength config hr
    have h2 : correctStepLength stepLength "running" config =
        max config.stepLengthRunRange.1 (min stepLength config.stepLengthRunRange.2) := by
      simp [correctStepLength]
    rw [h2]
    exact ⟨le_max_left _ _, max_le hr (min_le_right _ _)⟩
  · intro stepLength motionState config h1 h2
    simp [correctStepLength, h1, h2]

/-- Witness for C7: at the default configuration a raw step length of 2 is
clamped into the walking range [0.5, 0.7], and the "stairs" state passes 2
through unchanged. -/
theorem correctStepLength_spec_witness :
    ((0.5 : ℚ) ≤ correctStepLength 2 "walking" defaultConfig ∧
      correctStepLength 2 "walking" defaultConfig ≤ 0.7) ∧
      correctStepLength 2 "stairs" defaultConfig = 2 := by
  constructor
  · exact correctStepLength_spec.1 2 defaultConfig (by norm_num [defaultConfig])
  · exact correctStepLength_spec.2.2 2 "stairs" defaultConfig (by simp) (by simp)

/-- C10: `setStartingPosition` writes only `pdr.x/y/z` from its payload; the
particle population, step counters, bias, labels and every other session
field are unchanged — in particular the particles are not re-initialized. -/
theorem setStartingPosition_frame (s : SensorState) (payload : Vector3) :
    (setStartingPosition s payload).pdr.x = payload.x ∧
    (setStartingPosition s payload).pdr.y = payload.y ∧
    (setStartingPosition s payload).pdr.z = payload.z ∧
    (setStartingPosition s payload).pdr.particles = s.pdr.particles ∧
    (setStartingPosition s payload).pdr.stepCount = s.pdr.stepCount ∧
    (setStartingPosition s payload).pdr.lastStepTime = s.pdr.lastStepTime ∧
    (setStartingPosition s payload).pdr.lastAccelMag = s.pdr.lastAccelMag ∧
    (setStartingPosition s payload).pdr.headingBias = s.pdr.headingBias ∧
    (setStartingPosition s payload).pdr.deviceContext = s.pdr.deviceContext ∧
    (setStartingPosition s payload).pdr.motionState = s.pdr.motionState ∧
    (setStartingPosition s payload).userState = s.userState ∧
    (setStartingPosition s payload).sensorEnabled = s.sensorEnabled ∧
    (setStartingPosition s payload).dragMode = s.dragMode ∧
    (setStartingPosition s payload).orientationAngle = s.orientationAngle ∧
    (setStartingPosition s payload).rawAcceleration = s.rawAcceleration ∧
    (setStartingPosition s payload).rawGyroscope = s.rawGyroscope ∧
    (setStartingPosition s payload).rawMagnetometer = s.rawMagnetometer ∧
    (setStartingPosition s payload).barometricPressure = s.barometricPressure ∧
    (setStartingPosition s payload).dataSnapshots = s.dataSnapshots ∧
    (setStartingPosition s payload).recording = s.recording :=
  ⟨rfl, rfl, rfl, rfl, rfl, rfl, rfl, rfl, rfl, rfl, rfl, rfl, rfl, rfl, rfl,
    rfl, rfl, rfl, rfl, rfl⟩

/-- C8: invoking `updateRealTimePosition` while the user phase is
"selectingStart" leaves the whole state — in particular position, particles
and stepCount — identical to before the call: the entire update is skipped. -/
theorem update_skipped_when_selectingStart (psqrt msin mcos : ℚ → ℚ) (piQ : ℚ)
    (noise : ℕ → ℚ × ℚ) (uRand nowSec : ℚ) (s : SensorState)
    (h : s.userState = UserState.selectingStart) :
    updateRealTimePosition psqrt msin mcos piQ noise uRand nowSec s = s ∧
    (updateRealTimePosition psqrt msin mcos piQ noise uRand nowSec s).pdr.x = s.pdr.x ∧
    (updateRealTimePosition psqrt msin mcos piQ noise uRand nowSec s).pdr.y = s.pdr.y ∧
    (updateRealTimePosition psqrt msin mcos piQ noise uRand nowSec s).pdr.z = s.pdr.z ∧
    (updateRealTimePosition psqrt msin mcos piQ noise uRand nowSec s).pdr.particles =
      s.pdr.particles ∧
    (updateRealTimePosition psqrt msin mcos piQ noise uRand nowSec s).pdr.stepCount =
      s.pdr.stepCount := by
  have he : updateRealTimePosition psqrt msin mcos piQ noise uRand nowSec s = s := by
    simp only [updateRealTimePosition, if_pos h]
  exact ⟨he, by rw [he], by rw [he], by rw [he], by rw [he], by rw [he]⟩

/-- Witness for C8: from the initial state (whose phase is "selectingStart"),
the update is a no-op. -/
theorem update_skipped_when_selectingStart_witness :
    updateRealTimePosition (fun _ => 0) (fun _ => 0) (fun _ => 1) 3
      (fun _ => (0, 0)) 0 1 initialState = initialState :=
  (update_skipped_when_selectingStart (fun _ => 0) (fun _ => 0) (fun _ => 1) 3
    (fun _ => (0, 0)) 0 1 initialState rfl).1

/-- C1 is a code bug: `updateRealTimePosition` computes
`dt = nowSec - state.pdr.lastStepTime` only after `detectSteps` has already
set `lastStepTime := nowSec`, so on every detected step `dt = 0` and the
frequency handed to `estimateStepLength` is always the fallback 1 — never the
reciprocal of the actual inter-step interval. -/
theorem stepFreq_always_fallback_one (psqrt : ℚ → ℚ) (accel : Vector3)
    (timeNow : ℚ) (state : PDRState)
    (h : (detectSteps psqrt accel timeNow state).1 = true) :
    updateStepFreq timeNow (detectSteps psqrt accel timeNow state).2 = 1 := by
  rw [detectSteps_fst_true h]
  simp [updateStepFreq]

/-- Witness for C1: from the initial state a step detected at time 10 has a
true inter-step interval of 10 s (spec frequency 1/10), yet the frequency the
code computes is 1. -/
theorem stepFreq_always_fallback_one_witness :
    (detectSteps (fun _ => 2) { x := 2, y := 0, z := 0 } 10 initialPDR).1 = true ∧
    updateStepFreq 10 (detectSteps (fun _ => 2) { x := 2, y := 0, z := 0 } 10
      initialPDR).2 = 1 ∧
    specStepFreq 10 initialPDR.lastStepTime = 1 / 10 ∧
    (1 : ℚ) ≠ 1 / 10 :=
  ⟨by norm_num [detectSteps, initialPDR],
    stepFreq_always_fallback_one (fun _ => 2) { x := 2, y := 0, z := 0 } 10
      initialPDR (by norm_num [detectSteps, initialPDR]),
    by norm_num [specStepFreq, initialPDR],
    by norm_num⟩

/-- C9: the normalize step of the particle filter divides every weight by the
weight sum when that sum is positive (after which the weights sum to 1), and
leaves every weight unmodified when the sum is zero or negative; the embedded
update is a total function, so neither case can fail. -/
theorem normalize_step_spec :
    (∀ ps : List Particle, 0 < sumW ps →
      normalizeWeights ps = ps.map (fun p => { p with weight := p.weight / sumW ps }) ∧
        sumW (normalizeWeights ps) = 1) ∧
    (∀ ps : List Particle, sumW ps ≤ 0 → normalizeWeights ps = ps) := by
  constructor
  · intro ps hpos
    have he : normalizeWeights ps =
        ps.map (fun p => { p with weight := p.weight / sumW ps }) := by
      simp [normalizeWeights, if_pos hpos]
    refine ⟨he, ?_⟩
    rw [he, sumW_map_weight_div, div_self (ne_of_gt hpos)]
  · intro ps hle
    simp [normalizeWeights, not_lt.mpr hle]

/-- Witness for C9: on two particles of weight 2 each, the sum 4 is positive
and normalization rescales the weights to sum to 1; on a single particle of
weight 0 the sum is not positive and the list is returned unchanged. -/
theorem normalize_step_spec_witness :
    sumW (normalizeWeights [{ x := 0, y := 0, heading := 0, weight := 2 },
      { x := 1, y := 1, heading := 0, weight := 2 }]) = 1 ∧
    normalizeWeights [{ x := 0, y := 0, heading := 0, weight := 0 }] =
      [{ x := 0, y := 0, heading := 0, weight := 0 }] :=
  ⟨(normalize_step_spec.1 [{ x := 0, y := 0, heading := 0, weight := 2 },
      { x := 1, y := 1, heading := 0, weight := 2 }] (by norm_num [sumW])).2,
    normalize_step_spec.2 [{ x := 0, y := 0, heading := 0, weight := 0 }]
      (by norm_num [sumW])⟩

/-- C2: `classifyMotion` applied to the hard-coded variance constants 0.3 and
2.0 returns "stairs" (2.0 < 2 fails, 0.3 > 0.5 fails); hence on every update
in which `detectSteps` fires, `motionState` is set to "stairs", and
`correctStepLength` returns its input unchanged for "stairs", so the
walking/running clamp never applies in this pipeline. -/
theorem detected_step_motion_stairs :
    classifyMotion 0.3 2.0 = "stairs" ∧
    (∀ (psqrt msin mcos : ℚ → ℚ) (piQ : ℚ) (noise : ℕ → ℚ × ℚ)
        (uRand nowSec : ℚ) (s : SensorState),
      s.userState = UserState.startPointSelected →
      (detectSteps psqrt s.rawAcceleration nowSec s.pdr).1 = true →
        (updateRealTimePosition psqrt msin mcos piQ noise uRand nowSec
          s).pdr.motionState = "stairs") ∧
    (∀ (stepLength : ℚ) (config : PDRConfig),
      correctStepLength stepLength "stairs" config = stepLength) := by
  refine ⟨by norm_num [classifyMotion], ?_, ?_⟩
  · intro psqrt msin mcos piQ noise uRand nowSec s hu hdet
    have hns : ¬s.userState = UserState.selectingStart := by
      rw [hu]
      exact fun hh => UserState.noConfusion hh
    simp only [updateRealTimePosition, if_neg hns, if_pos hdet]
    rw [particleFilterUpdate_motionState]
    norm_num [classifyMotion]
  · intro stepLength config
    simp [correctStepLength]

/-- Witness for C2: a concrete detected step from a tracking-phase state ends
with `motionState = "stairs"`. -/
theorem detected_step_motion_stairs_witness :
    (updateRealTimePosition (fun _ => 2) (fun _ => 0) (fun _ => 1) 3
      (fun _ => (0, 0)) 0 10
      { initialState with
          userState := UserState.startPointSelected,
          rawAcceleration := { x := 2, y := 0, z := 0 } }).pdr.motionState =
      "stairs" :=
  detected_step_motion_stairs.2.1 (fun _ => 2) (fun _ => 0) (fun _ => 1) 3
    (fun _ => (0, 0)) 0 10
    { initialState with
        userState := UserState.startPointSelected,
        rawAcceleration := { x := 2, y := 0, z := 0 } }
    rfl (by norm_num [detectSteps, initialState, initialPDR])

/-- The one-particle session state used to refute the cardinality clause of
the weight invariant as literally stated. -/
def oneParticleState : PDRState :=
  { x := 0, y := 0, z := 0
    lastStepTime := 0
    stepCount := 0
    lastAccelMag := 0
    particles := [{ x := 0, y := 0, heading := 0, weight := 1 }]
    headingBias := 0
    deviceContext := "holding"
    motionState := "walking" }

/-- Counterexample to C3 as stated: on a state of a single particle of weight
1 (all weights positive), the update resamples (Neff = 1 < 75) and returns
150 particles, so the particle count is not unchanged. -/
theorem particle_count_changed_counterexample :
    (∀ p ∈ oneParticleState.particles, 0 < p.weight) ∧
    (particleFilterUpdate (fun _ => 0) (fun _ => 1) 3 (fun _ => (1 / 2, 1 / 2))
        (1 / 2) oneParticleState 0.6 0 defaultConfig).particles.length ≠
      oneParticleState.particles.length := by
  constructor
  · intro p hp
    simp only [oneParticleState, List.mem_singleton] at hp
    rw [hp]
    norm_num
  · have hmw : (propagateParticles (fun _ => 0) (fun _ => 1) 3 defaultConfig
        0.6 0 (fun _ => (1 / 2, 1 / 2)) 0 oneParticleState.particles).map
          Particle.weight = [1] := by
      rw [propagateParticles_map_weight]
      simp [oneParticleState]
    have hsum : sumW (propagateParticles (fun _ => 0) (fun _ => 1) 3
        defaultConfig 0.6 0 (fun _ => (1 / 2, 1 / 2)) 0
        oneParticleState.particles) = 1 := by
      rw [sumW, hmw]
      norm_num
    have hpos : (0 : ℚ) < sumW (propagateParticles (fun _ => 0) (fun _ => 1) 3
        defaultConfig 0.6 0 (fun _ => (1 / 2, 1 / 2)) 0
        oneParticleState.particles) := by rw [hsum]; norm_num
    have hnw : (normalizeWeights (propagateParticles (fun _ => 0) (fun _ => 1)
        3 defaultConfig 0.6 0 (fun _ => (1 / 2, 1 / 2)) 0
        oneParticleState.particles)).map Particle.weight = [1] := by
      rw [normalizeWeights_map_weight hpos, hmw, hsum]
      norm_num
    have hneff : neffInvOf (normalizeWeights (propagateParticles (fun _ => 0)
        (fun _ => 1) 3 defaultConfig 0.6 0 (fun _ => (1 / 2, 1 / 2)) 0
        oneParticleState.particles)) = 1 := by
      rw [neffInvOf_eq, hnw]
      norm_num
    rw [particleFilterUpdate_particles,
      if_pos (by rw [hneff]; norm_num [defaultConfig]),
      resampleParticles_particles, resampleLoop_length]
    simp [defaultConfig, oneParticleState]

/-- C3 amended: after every `particleFilterUpdate` on a state whose particle
weights are all positive and whose particle count equals the (positive)
configured `particleCount`, the weights sum to 1 and the particle count is
still `particleCount`.  (As literally stated — for arbitrary positive-weight
states — the claim fails: resampling changes the cardinality of any
population whose size differs from `particleCount`, see the
counterexample.) -/
theorem particle_filter_weight_sum_and_count (msin mcos : ℚ → ℚ) (piQ : ℚ)
    (noise : ℕ → ℚ × ℚ) (uRand : ℚ) (state : PDRState)
    (stepLength headingDeg : ℚ) (config : PDRConfig)
    (hcount : state.particles.length = config.particleCount)
    (hc : 0 < config.particleCount)
    (hw : ∀ p ∈ state.particles, 0 < p.weight) :
    sumW (particleFilterUpdate msin mcos piQ noise uRand state stepLength
      headingDeg config).particles = 1 ∧
    (particleFilterUpdate msin mcos piQ noise uRand state stepLength headingDeg
      config).particles.length = config.particleCount := by
  have hne : state.particles ≠ [] := by
    intro h
    rw [h] at hcount
    simp only [List.length_nil] at hcount
    omega
  have hsmoved : sumW (propagateParticles msin mcos piQ config stepLength
      headingDeg noise 0 state.particles) = sumW state.particles :=
    sumW_propagateParticles msin mcos piQ config stepLength headingDeg noise 0
      state.particles
  have hpos : 0 < sumW (propagateParticles msin mcos piQ config stepLength
      headingDeg noise 0 state.particles) := by
    rw [hsmoved]
    exact sumW_pos hne hw
  have hcast : ((config.particleCount : ℚ)) ≠ 0 := by
    exact_mod_cast Nat.pos_iff_ne_zero.mp hc
  constructor
  · rw [particleFilterUpdate_particles]
    split
    · rw [resampleParticles_particles, sumW_resampleLoop, mul_one_div,
        div_self hcast]
    · exact sumW_normalizeWeights hpos
  · rw [particleFilterUpdate_particles]
    split
    · rw [resampleParticles_particles, resampleLoop_length]
    · rw [normalizeWeights_length, propagateParticles_length, hcount]

/-- Witness for C3 (amended): the initial 150-particle population with uniform
positive weights keeps 150 particles and unit weight sum through an update. -/
theorem particle_filter_weight_sum_and_count_witness :
    sumW (particleFilterUpdate (fun _ => 0) (fun _ => 1) 3 (fun _ => (1 / 2, 1 / 2))
      (1 / 2) initialPDR 0.6 0 defaultConfig).particles = 1 ∧
    (particleFilterUpdate (fun _ => 0) (fun _ => 1) 3 (fun _ => (1 / 2, 1 / 2))
      (1 / 2) initialPDR 0.6 0 defaultConfig).particles.length =
      defaultConfig.particleCount :=
  particle_filter_weight_sum_and_count (fun _ => 0) (fun _ => 1) 3
    (fun _ => (1 / 2, 1 / 2)) (1 / 2) initialPDR 0.6 0 defaultConfig
    (by simp [initialPDR, defaultConfig]) (by norm_num [defaultConfig])
    (by
      intro p hp
      simp only [initialPDR, List.mem_replicate] at hp
      rw [hp.2]
      norm_num)

/-- C4: the update resamples exactly when the effective sample size
`Neff = 1 / Σ weight²` over the normalized weights falls below
`resampleThreshold`; resampling always yields exactly `particleCount`
particles, each a copy of a selected particle's position and heading, each
with weight `1/particleCount`. -/
theorem particle_filter_resampling_spec :
    (∀ (state : PDRState) (config : PDRConfig) (uRand : ℚ),
      (resampleParticles state config uRand).particles.length =
        config.particleCount) ∧
    (∀ (state : PDRState) (config : PDRConfig) (uRand : ℚ),
      ∀ q ∈ (resampleParticles state config uRand).particles,
        q.weight = 1 / (config.particleCount : ℚ)) ∧
    (∀ (state : PDRState) (config : PDRConfig) (uRand : ℚ),
      state.particles ≠ [] → (∀ p ∈ state.particles, 0 < p.weight) →
      0 ≤ uRand → uRand < 1 → 0 < config.particleCount →
      ∀ q ∈ (resampleParticles state config uRand).particles,
        ∃ p ∈ state.particles, q.x = p.x ∧ q.y = p.y ∧ q.heading = p.heading ∧
          q.weight = 1 / (config.particleCount : ℚ)) ∧
    (∀ (msin mcos : ℚ → ℚ) (piQ : ℚ) (noise : ℕ → ℚ × ℚ) (uRand : ℚ)
        (state : PDRState) (stepLength headingDeg : ℚ) (config : PDRConfig),
      0 < neffInvOf (normalizeWeights (propagateParticles msin mcos piQ config
        stepLength headingDeg noise 0 state.particles)) →
      ((1 / neffInvOf (normalizeWeights (propagateParticles msin mcos piQ
          config stepLength headingDeg noise 0 state.particles)) <
            config.resampleThreshold →
        (particleFilterUpdate msin mcos piQ noise uRand state stepLength
          headingDeg config).particles =
          (resampleParticles
            { state with
                particles := normalizeWeights (propagateParticles msin mcos piQ
                  config stepLength headingDeg noise 0 state.particles) }
            config uRand).particles) ∧
       (¬(1 / neffInvOf (normalizeWeights (propagateParticles msin mcos piQ
            config stepLength headingDeg noise 0 state.particles)) <
              config.resampleThreshold) →
        (particleFilterUpdate msin mcos piQ noise uRand state stepLength
          headingDeg config).particles =
          normalizeWeights (propagateParticles msin mcos piQ config stepLength
            headingDeg noise 0 state.particles)))) := by
  refine ⟨?_, ?_, ?_, ?_⟩
  · intro state config uRand
    rw [resampleParticles_particles, resampleLoop_length]
  · intro state config uRand q hq
    rw [resampleParticles_particles] at hq
    have h2 : q.weight ∈ (resampleLoop state.particles
        (cdfAux 0 state.particles)
        (sumW state.particles / (config.particleCount : ℚ))
        (1 / (config.particleCount : ℚ)) config.particleCount
        (uRand * (sumW state.particles / (config.particleCount : ℚ))) 0).map
          Particle.weight := List.mem_map_of_mem _ hq
    rw [resampleLoop_map_weight] at h2
    exact List.eq_of_mem_replicate h2
  · intro state config uRand hne hw hu0 hu1 hc q hq
    rw [resampleParticles_particles] at hq
    have htot : 0 < sumW state.particles := sumW_pos hne hw
    have hcQ : (0 : ℚ) < (config.particleCount : ℚ) := by exact_mod_cast hc
    have hstep : 0 < sumW state.particles / (config.particleCount : ℚ) :=
      div_pos htot hcQ
    have hcdfne : cdfAux 0 state.particles ≠ [] := cdfAux_ne_nil 0 hne
    have hlen : (cdfAux 0 state.particles).length = state.particles.length :=
      cdfAux_length 0 state.particles
    have hi0 : 0 < (cdfAux 0 state.particles).length := by
      rw [hlen]
      exact List.length_pos.mpr hne
    have hlast : (cdfAux 0 state.particles).getLast hcdfne =
        sumW state.particles := by
      rw [cdfAux_getLast 0 hne]
      ring
    have hub : ∀ m : ℕ, m < config.particleCount →
        uRand * (sumW state.particles / (config.particleCount : ℚ)) +
          (m : ℚ) * (sumW state.particles / (config.particleCount : ℚ)) ≤
            (cdfAux 0 state.particles).getLast hcdfne := by
      intro m hm
      rw [hlast]
      have h2 : uRand + (m : ℚ) < ((m + 1 : ℕ) : ℚ) := by push_cast; linarith
      have h3 : ((m + 1 : ℕ) : ℚ) ≤ (config.particleCount : ℚ) := by
        exact_mod_cast Nat.succ_le_of_lt hm
      calc uRand * (sumW state.particles / (config.particleCount : ℚ)) +
            (m : ℚ) * (sumW state.particles / (config.particleCount : ℚ))
          = (uRand + (m : ℚ)) *
              (sumW state.particles / (config.particleCount : ℚ)) := by ring
        _ ≤ (config.particleCount : ℚ) *
              (sumW state.particles / (config.particleCount : ℚ)) :=
            mul_le_mul_of_nonneg_right (le_trans (le_of_lt h2) h3)
              (le_of_lt hstep)
        _ = sumW state.particles := by
            rw [mul_comm, div_mul_cancel₀ _ (ne_of_gt hcQ)]
    exact resampleLoop_mem hcdfne hlen _ _ config.particleCount _ 0 hi0 hub q hq
  · intro msin mcos piQ noise uRand state stepLength headingDeg config h0
    constructor
    · intro hlt
      rw [particleFilterUpdate_particles, if_pos ⟨h0, hlt⟩]
    · intro hge
      rw [particleFilterUpdate_particles, if_neg]
      intro hcon
      exact hge hcon.2

/-- The propagate loop leaves the uniform initial weights 1/150 in place. -/
theorem initial_moved_map_weight (msin mcos : ℚ → ℚ) (piQ : ℚ)
    (config : PDRConfig) (stepLength headingDeg : ℚ) (noise : ℕ → ℚ × ℚ) :
    (propagateParticles msin mcos piQ config stepLength headingDeg noise 0
      initialPDR.particles).map Particle.weight =
      List.replicate 150 (1 / 150 : ℚ) := by
  rw [propagateParticles_map_weight]
  simp [initialPDR]

/-- Witness for C4: from the uniform initial population, Σ weight² of the
normalized weights is 1/150, Neff = 150 is not below the threshold 75, and
the update keeps the normalized population unresampled. -/
theorem particle_filter_resampling_spec_witness :
    (particleFilterUpdate (fun _ => 0) (fun _ => 1) 3 (fun _ => (1 / 2, 1 / 2))
      (1 / 2) initialPDR 0.6 0 defaultConfig).particles =
      normalizeWeights (propagateParticles (fun _ => 0) (fun _ => 1) 3
        defaultConfig 0.6 0 (fun _ => (1 / 2, 1 / 2)) 0
        initialPDR.particles) := by
  have hmw := initial_moved_map_weight (fun _ => 0) (fun _ => 1) 3
    defaultConfig 0.6 0 (fun _ => (1 / 2, 1 / 2))
  have hsum : sumW (propagateParticles (fun _ => 0) (fun _ => 1) 3
      defaultConfig 0.6 0 (fun _ => (1 / 2, 1 / 2)) 0
      initialPDR.particles) = 1 := by
    rw [sumW, hmw, List.sum_replicate]
    norm_num
  have hpos : (0 : ℚ) < sumW (propagateParticles (fun _ => 0) (fun _ => 1) 3
      defaultConfig 0.6 0 (fun _ => (1 / 2, 1 / 2)) 0
      initialPDR.particles) := by
    rw [hsum]
    norm_num
  have hneff : neffInvOf (normalizeWeights (propagateParticles (fun _ => 0)
      (fun _ => 1) 3 defaultConfig 0.6 0 (fun _ => (1 / 2, 1 / 2)) 0
      initialPDR.particles)) = 1 / 150 := by
    rw [neffInvOf_eq, normalizeWeights_map_weight hpos, hmw, hsum]
    simp only [List.map_replicate, List.sum_replicate, nsmul_eq_mul]
    norm_num
  exact (particle_filter_resampling_spec.2.2.2 (fun _ => 0) (fun _ => 1) 3
    (fun _ => (1 / 2, 1 / 2)) (1 / 2) initialPDR 0.6 0 defaultConfig
    (by rw [hneff]; norm_num)).2
    (by rw [hneff]; norm_num [defaultConfig])

/-- The default configuration with both noise amplitudes set to zero, for the
spec's zero-noise end-to-end scenario. -/
def zeroNoiseConfig : PDRConfig :=
  { defaultConfig with headingNoise := 0, stepLenNoise := 0 }

/-- When the per-particle move is independent of the random draws (as with
zero noise amplitudes), propagating a uniform population keeps it uniform. -/
theorem propagateParticles_replicate (msin mcos : ℚ → ℚ) (piQ : ℚ)
    (config : PDRConfig) (stepLength headingDeg : ℚ) (noise : ℕ → ℚ × ℚ)
    (p q : Particle)
    (h : ∀ nz : ℚ × ℚ, propagateParticle msin mcos piQ config stepLength
      headingDeg nz p = q) :
    ∀ (k i : ℕ),
      propagateParticles msin mcos piQ config stepLength headingDeg noise i
        (List.replicate k p) = List.replicate k q := by
  intro k
  induction k with
  | zero => intro i; rfl
  | succ k ih =>
    intro i
    simp only [List.replicate_succ, propagateParticles, h, ih]

theorem xMeanOf_replicate (n : ℕ) (p : Particle) :
    xMeanOf (List.replicate n p) = (n : ℚ) * (p.x * p.weight) := by
  simp [xMeanOf, List.map_replicate, List.sum_replicate, nsmul_eq_mul]

theorem yMeanOf_replicate (n : ℕ) (p : Particle) :
    yMeanOf (List.replicate n p) = (n : ℚ) * (p.y * p.weight) := by
  simp [yMeanOf, List.map_replicate, List.sum_replicate, nsmul_eq_mul]

/-- C5: in the propagate step each particle moves by
dx = step·sin(heading·π/180) and dy = step·cos(heading·π/180): heading 0
moves a particle entirely along +y and heading 90 entirely along +x (stated
under the defining values of sin/cos at those angles); and in the end-to-end
zero-noise scenario — all 150 particles at the origin with heading 0,
step length 0.6 — the weighted-mean position after `particleFilterUpdate`
has y = 0.6 and x = 0. -/
theorem propagate_heading_convention :
    (∀ (msin mcos : ℚ → ℚ) (piQ sl : ℚ) (nz : ℚ × ℚ) (p : Particle),
      msin 0 = 0 → mcos 0 = 1 →
        propagateParticle msin mcos piQ zeroNoiseConfig sl 0 nz p =
          { x := p.x, y := p.y + sl, heading := 0, weight := p.weight }) ∧
    (∀ (msin mcos : ℚ → ℚ) (piQ sl : ℚ) (nz : ℚ × ℚ) (p : Particle),
      msin (90 * piQ / 180) = 1 → mcos (90 * piQ / 180) = 0 →
        propagateParticle msin mcos piQ zeroNoiseConfig sl 90 nz p =
          { x := p.x + sl, y := p.y, heading := 90, weight := p.weight }) ∧
    (∀ (msin mcos : ℚ → ℚ) (piQ : ℚ) (noise : ℕ → ℚ × ℚ) (uRand : ℚ),
      msin 0 = 0 → mcos 0 = 1 →
        (particleFilterUpdate msin mcos piQ noise uRand initialPDR 0.6 0
          zeroNoiseConfig).x = 0 ∧
        (particleFilterUpdate msin mcos piQ noise uRand initialPDR 0.6 0
          zeroNoiseConfig).y = 0.6) := by
  have hnorth : ∀ (msin mcos : ℚ → ℚ) (piQ sl : ℚ) (nz : ℚ × ℚ) (p : Particle),
      msin 0 = 0 → mcos 0 = 1 →
        propagateParticle msin mcos piQ zeroNoiseConfig sl 0 nz p =
          { x := p.x, y := p.y + sl, heading := 0, weight := p.weight } := by
    intro msin mcos piQ sl nz p hs hc
    norm_num [propagateParticle, zeroNoiseConfig, defaultConfig, jsMod, qtrunc,
      hs, hc]
  refine ⟨hnorth, ?_, ?_⟩
  · intro msin mcos piQ sl nz p hs hc
    norm_num [propagateParticle, zeroNoiseConfig, defaultConfig, jsMod, qtrunc,
      hs, hc]
  · intro msin mcos piQ noise uRand hs hc
    have hmoved : propagateParticles msin mcos piQ zeroNoiseConfig 0.6 0 noise
        0 initialPDR.particles =
        List.replicate 150
          { x := 0, y := 0 + 0.6, heading := 0, weight := (1 : ℚ) / 150 } := by
      have hrep : initialPDR.particles =
          List.replicate 150 { x := 0, y := 0, heading := 0, weight := (1 : ℚ) / 150 } := rfl
      rw [hrep]
      exact propagateParticles_replicate msin mcos piQ zeroNoiseConfig 0.6 0
        noise _ _ (fun nz => hnorth msin mcos piQ 0.6 nz _ hs hc) 150 0
    have hsum : sumW (List.replicate 150
        { x := 0, y := 0 + 0.6, heading := 0, weight := (1 : ℚ) / 150 }) = 1 := by
      simp only [sumW, List.map_replicate, List.sum_replicate, nsmul_eq_mul]
      norm_num
    have hnormed : normalizeWeights (List.replicate 150
        { x := 0, y := 0 + 0.6, heading := 0, weight := (1 : ℚ) / 150 }) =
        List.replicate 150
          { x := 0, y := 0 + 0.6, heading := 0, weight := (1 : ℚ) / 150 } := by
      rw [normalizeWeights_pos_eq (by rw [hsum]; norm_num), hsum]
      simp [List.map_replicate]
    have hneff : neffInvOf (List.replicate 150
        { x := 0, y := 0 + 0.6, heading := 0, weight := (1 : ℚ) / 150 }) =
        1 / 150 := by
      rw [neffInvOf_eq]
      simp only [List.map_replicate, List.sum_replicate, nsmul_eq_mul]
      norm_num
    have hparts : (particleFilterUpdate msin mcos piQ noise uRand initialPDR
        0.6 0 zeroNoiseConfig).particles =
        List.replicate 150
          { x := 0, y := 0 + 0.6, heading := 0, weight := (1 : ℚ) / 150 } := by
      rw [particleFilterUpdate_particles, hmoved, hnormed, if_neg]
      rw [hneff]
      intro hcon
      have h2 := hcon.2
      norm_num [zeroNoiseConfig, defaultConfig] at h2
    constructor
    · rw [particleFilterUpdate_x, hparts, xMeanOf_replicate]
      norm_num
    · rw [particleFilterUpdate_y, hparts, yMeanOf_replicate]
      norm_num

/-- Witness for C5: with sin/cos instantiated to concrete functions taking
the defining values at 0, the zero-noise update from the initial state lands
the weighted mean at (0, 0.6), and a heading-90 particle moves entirely
along +x. -/
theorem propagate_heading_convention_witness :
    ((particleFilterUpdate (fun _ => 0) (fun _ => 1) 3 (fun _ => (1 / 2, 1 / 2))
        (1 / 2) initialPDR 0.6 0 zeroNoiseConfig).x = 0 ∧
      (particleFilterUpdate (fun _ => 0) (fun _ => 1) 3 (fun _ => (1 / 2, 1 / 2))
        (1 / 2) initialPDR 0.6 0 zeroNoiseConfig).y = 0.6) ∧
    propagateParticle (fun _ => 1) (fun _ => 0) 3 zeroNoiseConfig 0.6 90
        (1 / 2, 1 / 2) { x := 0, y := 0, heading := 0, weight := 1 } =
      { x := 0 + 0.6, y := 0, heading := 90, weight := 1 } :=
  ⟨propagate_heading_convention.2.2 (fun _ => 0) (fun _ => 1) 3
      (fun _ => (1 / 2, 1 / 2)) (1 / 2) rfl rfl,
    propagate_heading_convention.2.1 (fun _ => 1) (fun _ => 0) 3 0.6
      (1 / 2, 1 / 2) { x := 0, y := 0, heading := 0, weight := 1 } rfl rfl⟩

end PDRFusion
